import Mathlib

/-!
Verification of `ape/plugins/_utils.py` (plugin metadata and package-manager
command construction for the Ape framework).

The Python module is embedded shallowly:

* Python strings are Lean `String`s; every string operation the proofs rely on
  (`split`, `replace`, `strip`, `startswith`, substring membership) is
  implemented by structural recursion over `String.toList`, mirroring the
  CPython semantics of the corresponding `str` method, so that all
  definitions evaluate on concrete inputs.
* External collaborators (the set of installed distributions from
  `importlib.metadata`, the GitHub registry of available plugins,
  `get_package_version`, and the `click.confirm` prompt) are gathered in an
  explicit `Env` record passed to the embedded functions.
* Exceptions become `Except` results.
* The `packaging` library's `SpecifierSet`/`Version` (an external dependency)
  is modelled by `parseSpecifierSet` / release-number lists; only the shape
  used by `would_get_downgraded` (operator string plus numeric release
  components, which `packaging` guarantees to be non-negative integers) is
  represented.
-/

/-! ## Character-list string primitives -/

/-- `sub` occurs as a prefix of `s` (CPython `str.startswith`). -/
def strStartsWith (s sub : String) : Bool :=
  sub.toList.isPrefixOf s.toList

/-- `sub` occurs as a contiguous substring of `s` (CPython `sub in s`). -/
def strContains (s sub : String) : Bool :=
  s.toList.tails.any (fun t => sub.toList.isPrefixOf t)

/-- single-character membership (CPython `c in s` for a 1-character `c`). -/
def strContainsChar (s : String) (c : Char) : Bool :=
  s.toList.contains c

/-- Split `l` at every occurrence of the non-empty pattern `p0 :: ps`
(leftmost-first, non-overlapping), like CPython `str.split(sep)`.  The
recursion is structural on a `fuel` counter (always called with
`fuel = l.length + 1`, which the skipping recursion never exhausts) so that
the definition evaluates inside the kernel. -/
def splitOnList (fuel : Nat) (l : List Char) (p0 : Char) (ps : List Char) :
    List (List Char) :=
  match fuel, l with
  | 0, l => [l]
  | _ + 1, [] => [[]]
  | fuel + 1, c :: cs =>
    if (p0 :: ps).isPrefixOf (c :: cs) then
      [] :: splitOnList fuel (cs.drop ps.length) p0 ps
    else
      match splitOnList fuel cs p0 ps with
      | [] => [[c]]
      | seg :: rest => (c :: seg) :: rest

/-- CPython `s.split(sep)` for a non-empty separator (the Python function
raises `ValueError` for an empty separator; the sources never use one). -/
def strSplitOn (s sep : String) : List String :=
  match sep.toList with
  | [] => [s]
  | p :: ps => (splitOnList (s.toList.length + 1) s.toList p ps).map String.mk

/-- Replace every occurrence of the non-empty pattern `p0 :: ps` by `rep`,
scanning left to right (CPython `str.replace`), with the same fuel scheme
as `splitOnList`. -/
def replaceList (fuel : Nat) (l : List Char) (p0 : Char) (ps rep : List Char) :
    List Char :=
  match fuel, l with
  | 0, l => l
  | _ + 1, [] => []
  | fuel + 1, c :: cs =>
    if (p0 :: ps).isPrefixOf (c :: cs) then
      rep ++ replaceList fuel (cs.drop ps.length) p0 ps rep
    else
      c :: replaceList fuel cs p0 ps rep

/-- CPython `s.replace(pat, rep)` for a non-empty pattern (the sources only
replace the non-empty patterns `"_"`, `"-"`, `"ape-"` and `"git+"`). -/
def strReplace (s pat rep : String) : String :=
  match pat.toList with
  | [] => s
  | p :: ps => String.mk (replaceList (s.toList.length + 1) s.toList p ps rep.toList)

/-- CPython `str.strip()`: drop leading and trailing whitespace. -/
def pyStrip (s : String) : String :=
  String.mk (((s.toList.dropWhile Char.isWhitespace).reverse.dropWhile
      Char.isWhitespace).reverse)

/-- CPython `"sep".join(parts)`. -/
def strJoin (sep : String) (parts : List String) : String :=
  String.mk (List.intercalate sep.toList (parts.map String.toList))

/-- Parse a run of decimal digits (used by the model of
`packaging.version.Version`). -/
def digitsToNat (l : List Char) : Nat :=
  l.foldl (fun acc c => acc * 10 + (c.toNat - '0'.toNat)) 0

/-- `some n` when `s` is a non-empty all-digit string. -/
def parseNat (s : String) : Option Nat :=
  if s.toList ≠ [] ∧ s.toList.all Char.isDigit then some (digitsToNat s.toList)
  else none

/-! ## Source constants (`_utils.py` lines 27-83) -/

/-- Plugins that ship with the core product (`CORE_PLUGINS`). -/
def CORE_PLUGINS : List String :=
  ["ape_accounts", "ape_cache", "ape_compile", "ape_console", "ape_ethereum",
   "ape_node", "ape_init", "ape_networks", "ape_plugins", "ape_pm", "ape_run",
   "ape_test"]

/-- Hardcoded trusted-plugin names (`TRUSTED_PLUGINS`). -/
def TRUSTED_PLUGINS : List String :=
  ["addressbook", "alchemy", "arbitrum", "avalanche", "aws", "base", "blast",
   "blockscout", "bsc", "cairo", "chainstack", "ens", "etherscan", "fantom",
   "farcaster", "flashbots", "foundry", "frame", "ganache", "hardhat",
   "infura", "ledger", "notebook", "optimism", "polygon", "polygon-zkevm",
   "safe", "solidity", "template", "tenderly", "titanoboa", "tokens",
   "trezor", "vyper"]

/-- `clean_plugin_name`: `name.replace("_", "-").replace("ape-", "")`. -/
def clean_plugin_name (name : String) : String :=
  strReplace (strReplace name "_" "-") "ape-" ""

/-- Python truthiness of an `Optional[str]`: `None` and `""` are falsy. -/
def optTruthy : Option String → Bool
  | none => false
  | some s => s.toList ≠ []

/-! ## `_split_name_and_version` (lines 643-652) -/

/-- `_split_name_and_version(value)`.  With an `"@"` present the value is
split on `"@"` (empty segments dropped) into a name and a re-joined version;
otherwise the value is cut at the smallest index of any of `=`, `<`, `>`
present in it (`min(value.index(c) for c in chars)`); with none of them
present, `(value, None)` is returned. -/
def _split_name_and_version (value : String) : String × Option String :=
  if strContainsChar value '@' then
    let parts := (strSplitOn value "@").filter (fun x => x ≠ "")
    (parts.headD "", some (strJoin "@" parts.tail))
  else
    let chars := (['=', '<', '>'].filter (fun c => strContainsChar value c))
    match chars.map (fun c => value.toList.findIdx (fun a => a = c)) with
    | [] => (value, none)
    | j :: js =>
      let index := js.foldl min j
      (String.mk (value.toList.take index), some (String.mk (value.toList.drop index)))

/-! ## `ApeVersion` (lines 114-178)

The running Ape version is external input (it comes from `ape.version`), so
the embedded functions take an `ApeVer` argument; `packaging` guarantees the
`major`/`minor` components are non-negative integers. -/

/-- The `major`/`minor` components of the running Ape version. -/
structure ApeVer where
  major : Nat
  minor : Nat
deriving DecidableEq, Repr

/-- `ApeVersion.is_pre_one`: `self.major == 0`. -/
def isPreOne (ap : ApeVer) : Bool :=
  ap.major = 0

/-- `ApeVersion.version_range` (lines 137-143). -/
def versionRange (ap : ApeVer) : String :=
  if ap.major = 0 then
    ">=0." ++ toString ap.minor ++ ",<0." ++ toString (ap.minor + 1)
  else
    ">=" ++ toString ap.major ++ ",<" ++ toString (ap.major + 1)

/-- A parsed `packaging` specifier: operator string plus the release-number
components of its version (`Version.major`/`minor` default to `0` when the
release has fewer components). -/
abbrev Specifier := String × List Nat

/-- `packaging.version.Version.major`: first release component, default 0. -/
def releaseMajor (rel : List Nat) : Nat := rel.headD 0

/-- `packaging.version.Version.minor`: second release component, default 0. -/
def releaseMinor (rel : List Nat) : Nat := (rel.drop 1).headD 0

/-- Specifier operators recognised by `packaging`, longest first so that
prefix matching picks the maximal operator. -/
def specOperators : List String :=
  ["===", "==", "!=", "~=", "<=", ">=", "<", ">"]

/-- Modelled from the `packaging` library (an external dependency, not part
of this repository): parse one comparison specifier such as `">=0.6"` into
its operator and numeric release components; `none` models
`InvalidSpecifier`/`InvalidVersion`. -/
def parseSpecifier (s : String) : Option Specifier :=
  match specOperators.find? (fun op => strStartsWith s op) with
  | none => none
  | some op =>
    let rest := pyStrip (String.mk (s.toList.drop op.toList.length))
    match (strSplitOn rest ".").mapM parseNat with
    | none => none
    | some rel => some (op, rel)

/-- Modelled from the `packaging` library: `SpecifierSet(text)` splits on
commas, strips each piece and drops empty pieces, then parses each piece. -/
def parseSpecifierSet (s : String) : Option (List Specifier) :=
  (((strSplitOn s ",").map pyStrip).filter (fun x => x ≠ "")).mapM parseSpecifier

/-- `ApeVersion.would_get_downgraded` (lines 165-175): some specifier uses
`==`, `<` or `<=` with a version whose major is below Ape's major or whose
minor is below Ape's minor, in both cases only when Ape is pre-1.0. -/
def wouldGetDowngraded (ap : ApeVer) (specSet : List Specifier) : Bool :=
  specSet.any (fun sp =>
    (sp.1 = "==" || sp.1 = "<" || sp.1 = "<=") &&
      ((isPreOne ap && decide (releaseMajor sp.2 < ap.major)) ||
       (isPreOne ap && decide (releaseMinor sp.2 < ap.minor))))

/-! ## `PluginMetadata` (lines 296-580) -/

/-- The validated fields of a `PluginMetadata` model. -/
structure PluginMetadata where
  name : String
  version : Option String
  pipCommand : List String
deriving DecidableEq, Repr

/-- `PluginMetadata.package_name`: `f"ape-{self.name}"`. -/
def packageName (p : PluginMetadata) : String :=
  "ape-" ++ p.name

/-- `PluginMetadata.module_name`: `f"ape_{self.name.replace('-', '_')}"`. -/
def moduleName (p : PluginMetadata) : String :=
  "ape_" ++ strReplace p.name "-" "_"

/-- `PluginMetadata.in_core`: `self.module_name.strip() in CORE_PLUGINS`. -/
def inCore (p : PluginMetadata) : Bool :=
  CORE_PLUGINS.contains (pyStrip (moduleName p))

/-- External state the module consults:  the distribution names visible to
`_get_distributions()`, the module names published by the GitHub registry
(`github_client.available_plugins`), the installed version reported by
`get_package_version`, the interactive `click.confirm` answer, and the
global `PIP_COMMAND` (whose value depends on whether `uv` is on `PATH`). -/
structure Env where
  dists : List String
  availablePlugins : List String
  packageVersions : String → Option String
  confirm : Bool
  pipCommand : List String

/-- `get_plugin_dists` / `_filter_plugins_from_dists`: distribution names
starting with `"ape-"`. -/
def getPluginDists (env : Env) : List String :=
  env.dists.filter (fun n => strStartsWith n "ape-")

/-- `PluginMetadata.check_installed`:
`any(n == self.package_name for n in get_plugin_dists())`. -/
def checkInstalled (env : Env) (p : PluginMetadata) : Bool :=
  (getPluginDists env).any (fun n => n == packageName p)

/-- `PluginMetadata.is_available`:
`self.module_name in _get_available_plugins()`. -/
def isAvailable (env : Env) (p : PluginMetadata) : Bool :=
  env.availablePlugins.contains (moduleName p)

/-- `PluginMetadata.check_trusted(use_web, trusted_list)`: on the web path it
is availability; offline it is membership of the name in
`trusted_list or TRUSTED_PLUGINS` (an empty `trusted_list` is falsy). -/
def checkTrusted (env : Env) (useWeb : Bool) (trustedList : Option (List String))
    (p : PluginMetadata) : Bool :=
  if useWeb then isAvailable env p
  else
    let effective := match trustedList with
      | none => TRUSTED_PLUGINS
      | some [] => TRUSTED_PLUGINS
      | some l => l
    effective.contains p.name

/-- `PluginMetadata.current_version`: `get_package_version(self.package_name)`. -/
def currentVersion (env : Env) (p : PluginMetadata) : Option String :=
  env.packageVersions (packageName p)

/-- `PluginMetadata.can_install`: not installed, or a version is requested
that differs from the installed one. -/
def canInstall (env : Env) (p : PluginMetadata) : Bool :=
  let requestingDifferentVersion :=
    p.version.isSome && (p.version != currentVersion env p)
  !checkInstalled env p || requestingDifferentVersion

/-- Modelled from the spec: the source derives a plugin name from a git URL
via `urllib.parse.urlparse` (an external library).  We model the composite
`urlparse(version.replace("git+", "")).path.split(".git")[0].split("/")[-1]
.replace("ape-", "")` by dropping the `"git+"` markers, cutting at
`".git"`, taking the last `/`-segment and removing `"ape-"`.  (No claim
exercises this path; it is kept so the validator below is total.) -/
def gitUrlToName (version : String) : String :=
  let noGit := strReplace version "git+" ""
  let beforeDotGit := (strSplitOn noGit ".git").headD ""
  let lastSegment := (strSplitOn beforeDotGit "/").getLastD ""
  strReplace lastSegment "ape-" ""

/-- `PluginMetadata.validate_name` (lines 313-350), the `mode="before"` model
validator: resolve git-URL names, validate git versions, pull a version
constraint out of the name when no version was given, and clean the name.
`Except.error` models the `ValueError` raised on a git version that does not
mention the plugin. -/
def validateName (name0 : String) (version0 : Option String)
    (pipCmd : List String) : Except String PluginMetadata :=
  let nv : String × Option String :=
    if strStartsWith name0 "git+" then (gitUrlToName name0, some name0)
    else (name0, version0)
  if optTruthy nv.2 && strStartsWith (nv.2.getD "") "git+" then
    if strContains (nv.2.getD "") ("ape-" ++ nv.1) then
      Except.ok ⟨clean_plugin_name nv.1, nv.2, pipCmd⟩
    else
      Except.error "Plugin mismatch with remote git version."
  else
    let nv2 :=
      if !optTruthy nv.2 &&
          (["==", "<=", ">=", "@git+"].any (fun c => strContains nv.1 c)) then
        _split_name_and_version nv.1
      else nv
    Except.ok ⟨clean_plugin_name nv2.1, nv2.2, pipCmd⟩

/-! ## Command construction (lines 376-580) -/

/-- The errors `install_str` can raise: `PluginVersionError` from the
downgrade check, and `packaging`'s `InvalidSpecifier` from parsing the
version text. -/
inductive InstallError where
  | pluginVersion
  | invalidSpecifier
deriving DecidableEq, Repr

/-- `PluginMetadata.install_str` (lines 376-408): a git version is returned
verbatim; a plain version without any of `=`, `<`, `>` is normalised to
`"==version"`; a version that would downgrade Ape raises
`PluginVersionError`; with no (truthy) version the package name is suffixed
with `ape_version.version_range`.  (The source computes the final
`f"{package_name}{version}"` once after the branches; it is inlined into
each branch here, `version` being truthy in all of them.) -/
def installStr (ap : ApeVer) (p : PluginMetadata) : Except InstallError String :=
  if optTruthy p.version && strStartsWith (p.version.getD "") "git+" then
    Except.ok (p.version.getD "")
  else if optTruthy p.version then
    let v0 := p.version.getD ""
    let v :=
      if !(strContainsChar v0 '=' || strContainsChar v0 '<' || strContainsChar v0 '>') then
        "==" ++ v0
      else v0
    match parseSpecifierSet v with
    | none => Except.error InstallError.invalidSpecifier
    | some specSet =>
      if wouldGetDowngraded ap specSet then Except.error InstallError.pluginVersion
      else Except.ok (packageName p ++ v)
  else
    Except.ok (packageName p ++ versionRange ap)

/-- Python truthiness of the `extra_args` parameter:
`list(extra_args) if extra_args else []`. -/
def optList : Option (List String) → List String
  | none => []
  | some l => l

/-- `PluginMetadata.prepare_package_manager_args` (lines 485-511).  `uv` puts
`--python` after the verb, `pip` before it; without a (truthy)
`python_location` both put the verb right after the base command.  (The
source indexes `command[0]`; `headD ""` models it, and the theorems about
this function assume a non-empty `pip_command`, the only case in which the
source does not raise `IndexError`.) -/
def preparePackageManagerArgs (p : PluginMetadata) (verb : String)
    (pythonLocation : Option String) (extraArgs : Option (List String)) :
    List String :=
  let extra := optList extraArgs
  let command := p.pipCommand
  if command.headD "" = "uv" then
    if optTruthy pythonLocation then
      command ++ [verb, "--python", pythonLocation.getD ""] ++ extra
    else
      command ++ [verb] ++ extra
  else
    if optTruthy pythonLocation then
      command ++ ["--python", pythonLocation.getD "", verb] ++ extra
    else
      command ++ [verb] ++ extra

/-- One value of the `dict[str, Any]` returned by `_prepare_install`: the
pip argument list, the pre-upgrade version, or the result handler object. -/
inductive PrepValue where
  | args : List String → PrepValue
  | versionBefore : Option String → PrepValue
  | resultHandler : PrepValue
deriving DecidableEq, Repr

/-- `PluginMetadata._prepare_install` (lines 513-569).  Returns `none` for a
core plugin, for `--upgrade` combined with an explicit version, and when the
plugin is already installed with no different version requested (or the
confirmation prompt is declined); the third-party branch in the source only
logs a warning.  The returned dictionary is the association list of its
string keys. -/
def prepareInstall (env : Env) (ap : ApeVer) (p : PluginMetadata)
    (upgrade skipConfirmation : Bool) (pythonLocation : Option String) :
    Except InstallError (Option (List (String × PrepValue))) :=
  if inCore p then Except.ok none
  else if p.version.isSome && upgrade then Except.ok none
  else
    let pipArguments := preparePackageManagerArgs p "install" pythonLocation none
    if upgrade then
      Except.ok (some
        [("args", PrepValue.args (pipArguments ++
            ["--upgrade", packageName p ++ versionRange ap, "--quiet"])),
         ("version_before", PrepValue.versionBefore (currentVersion env p)),
         ("result_handler", PrepValue.resultHandler)])
    else if canInstall env p &&
        (isAvailable env p || skipConfirmation || env.confirm) then
      match installStr ap p with
      | Except.error e => Except.error e
      | Except.ok s =>
        Except.ok (some
          [("args", PrepValue.args (pipArguments ++ [s, "--quiet"])),
           ("result_handler", PrepValue.resultHandler)])
    else Except.ok none

/-- `PluginMetadata._get_uninstall_args` (lines 571-580): the `uninstall`
package-manager arguments, `-y` when the pip command is not `uv`, then the
package name and `--quiet`. -/
def getUninstallArgs (p : PluginMetadata) (pythonLocation : Option String) :
    List String :=
  let arguments := preparePackageManagerArgs p "uninstall" pythonLocation none
  let arguments :=
    if p.pipCommand.headD "" ≠ "uv" then arguments ++ ["-y"] else arguments
  arguments ++ [packageName p, "--quiet"]

/-! ## `PluginMetadataList.from_package_names` (lines 221-256) -/

/-- The four classification targets (`PluginType`). -/
inductive PluginType where
  | core
  | available
  | installed
  | thirdParty
deriving DecidableEq, Repr

/-- An insertion-ordered string-keyed dictionary, as a key-value list:
`d[k] = v` overwrites in place or appends. -/
def dictInsert (d : List (String × PluginMetadata)) (k : String)
    (v : PluginMetadata) : List (String × PluginMetadata) :=
  if d.any (fun kv => kv.1 == k) then
    d.map (fun kv => if kv.1 == k then (kv.1, v) else kv)
  else d ++ [(k, v)]

/-- The four `PluginGroup` dictionaries of a `PluginMetadataList`. -/
structure Groups where
  core : List (String × PluginMetadata)
  available : List (String × PluginMetadata)
  installed : List (String × PluginMetadata)
  thirdParty : List (String × PluginMetadata)
deriving DecidableEq, Repr

/-- Per-entry parsing at the top of the `from_package_names` loop:
`parts = package_id.split("==")`, `name = parts[0]`,
`version = parts[1] if len(parts) == 2 else None`. -/
def parseEntry (packageId : String) : String × Option String :=
  match strSplitOn packageId "==" with
  | [n, v] => (n, some v)
  | parts => (parts.headD "", none)

/-- The body of the `from_package_names` loop for one `package_id`:
construct the metadata (through the model validator, with the name
stripped), then file it under core / available / installed / third-party,
or under no group.  The dictionary key is the raw `name` from the split. -/
def classifyBody (env : Env) (includeAvailable : Bool)
    (trustedList : Option (List String)) (acc : Groups) (name : String)
    (version : Option String) : Except String Groups :=
  match validateName (pyStrip name) version env.pipCommand with
  | Except.error e => Except.error e
  | Except.ok plugin =>
    if inCore plugin then
      Except.ok { acc with core := dictInsert acc.core name plugin }
    else
      let isInstalled := checkInstalled env plugin
      let isTrusted := checkTrusted env false trustedList plugin
      let isAvail := includeAvailable && isAvailable env plugin
      if includeAvailable && isAvail && !isInstalled then
        Except.ok { acc with available := dictInsert acc.available name plugin }
      else if isInstalled && !inCore plugin && isTrusted then
        Except.ok { acc with installed := dictInsert acc.installed name plugin }
      else if isInstalled then
        Except.ok { acc with thirdParty := dictInsert acc.thirdParty name plugin }
      else
        Except.ok acc

/-- The loop body, starting from the split of the raw `package_id`. -/
def classifyStep (env : Env) (includeAvailable : Bool)
    (trustedList : Option (List String)) (acc : Groups) (packageId : String) :
    Except String Groups :=
  classifyBody env includeAvailable trustedList acc (parseEntry packageId).1
    (parseEntry packageId).2

/-- `PluginMetadataList.from_package_names`: fold the loop body over the
package ids, starting from four empty groups. -/
def fromPackageNames (env : Env) (packages : List String)
    (includeAvailable : Bool) (trustedList : Option (List String)) :
    Except String Groups :=
  packages.foldlM (classifyStep env includeAvailable trustedList)
    ⟨[], [], [], []⟩

/-! ## Reference classification (the wording of the specification)

`from_package_names` is specified on iterables of package-name strings,
each optionally suffixed `==version`.  `wfEntry` makes that input class
precise: the name part is made of package-name characters (letters, digits,
`-`, `_`, `.`), and a version suffix is not a git reference. -/

/-- Characters that occur in package names (PEP 503 names plus `_` and `.`). -/
def isPackageNameChar (c : Char) : Bool :=
  c.isAlphanum || c = '-' || c = '_' || c = '.'

/-- A plain package-name string: every character is a package-name
character. -/
def plainName (s : String) : Bool :=
  s.toList.all isPackageNameChar

/-- A well-formed `from_package_names` entry: a package-name string,
optionally suffixed `==version` with a non-git version. -/
def wfEntry (packageId : String) : Bool :=
  match strSplitOn packageId "==" with
  | [n] => plainName (pyStrip n)
  | [n, v] => plainName (pyStrip n) && !(strStartsWith v "git+")
  | _ => false

/-- Reference classification of one entry, following the specification
text: the entry goes to `core` iff its module name (`"ape_"` plus the
cleaned name with dashes replaced by underscores) is in the hardcoded
`CORE_PLUGINS` list; otherwise to `available` iff availability is included,
the module name is in the registry's available set and the plugin is not
installed; otherwise to `installed` iff it is installed and trusted;
otherwise to `thirdParty` iff it is installed; otherwise to no group. -/
def refClassifyName (env : Env) (includeAvailable : Bool)
    (trustedList : Option (List String)) (name : String) : Option PluginType :=
  let cleaned := clean_plugin_name (pyStrip name)
  let module := "ape_" ++ strReplace cleaned "-" "_"
  let installed :=
    (env.dists.filter (fun n => strStartsWith n "ape-")).any
      (fun n => n == "ape-" ++ cleaned)
  let trustedNames := match trustedList with
    | none => TRUSTED_PLUGINS
    | some [] => TRUSTED_PLUGINS
    | some l => l
  if CORE_PLUGINS.contains module then some PluginType.core
  else if includeAvailable && env.availablePlugins.contains module && !installed then
    some PluginType.available
  else if installed && trustedNames.contains cleaned then some PluginType.installed
  else if installed then some PluginType.thirdParty
  else none

/-- The key sets of the four groups (dictionary keys, in insertion order). -/
structure KeyGroups where
  core : List String
  available : List String
  installed : List String
  thirdParty : List String
deriving DecidableEq, Repr

/-- Key-level dictionary insertion: adding an existing key leaves the key
list unchanged. -/
def keyInsert (ks : List String) (k : String) : List String :=
  if ks.any (fun x => x == k) then ks else ks ++ [k]

/-- The keys of the four group dictionaries. -/
def keysGroups (g : Groups) : KeyGroups :=
  ⟨g.core.map Prod.fst, g.available.map Prod.fst,
   g.installed.map Prod.fst, g.thirdParty.map Prod.fst⟩

/-- One entry of the reference classification, acting on key sets: the
entry's key (the part of the id before `"=="`) joins the group chosen by
`refClassifyName`. -/
def refKeyStep (env : Env) (includeAvailable : Bool)
    (trustedList : Option (List String)) (acc : KeyGroups) (packageId : String) :
    KeyGroups :=
  let key := (parseEntry packageId).1
  match refClassifyName env includeAvailable trustedList key with
  | some PluginType.core => { acc with core := keyInsert acc.core key }
  | some PluginType.available => { acc with available := keyInsert acc.available key }
  | some PluginType.installed => { acc with installed := keyInsert acc.installed key }
  | some PluginType.thirdParty => { acc with thirdParty := keyInsert acc.thirdParty key }
  | none => acc

/-- The reference grouping of a whole package list. -/
def referenceKeyGroups (env : Env) (includeAvailable : Bool)
    (trustedList : Option (List String)) (packages : List String) : KeyGroups :=
  packages.foldl (refKeyStep env includeAvailable trustedList) ⟨[], [], [], []⟩

/-- No key of `a` occurs in `b`. -/
def keysDisjoint (a b : List String) : Bool :=
  a.all (fun k => !(b.any (fun x => x == k)))

/-- The four group dictionaries have pairwise disjoint key sets. -/
def groupsKeysDisjoint (g : Groups) : Bool :=
  keysDisjoint (keysGroups g).core (keysGroups g).available &&
  keysDisjoint (keysGroups g).core (keysGroups g).installed &&
  keysDisjoint (keysGroups g).core (keysGroups g).thirdParty &&
  keysDisjoint (keysGroups g).available (keysGroups g).installed &&
  keysDisjoint (keysGroups g).available (keysGroups g).thirdParty &&
  keysDisjoint (keysGroups g).installed (keysGroups g).thirdParty

/-- File one key-value pair under the chosen group (or under none). -/
def applyStep (acc : Groups) (key : String) (v : PluginMetadata) :
    Option PluginType → Groups
  | some PluginType.core => { acc with core := dictInsert acc.core key v }
  | some PluginType.available => { acc with available := dictInsert acc.available key v }
  | some PluginType.installed => { acc with installed := dictInsert acc.installed key v }
  | some PluginType.thirdParty => { acc with thirdParty := dictInsert acc.thirdParty key v }
  | none => acc

/-! ## Sample inputs used by the witnesses -/

/-- A sample environment: `ape-trezor` is installed, `ape_solidity` and
`ape_trezor` are available from the registry, nothing reports a version,
prompts are confirmed, and `uv` is the pip command. -/
def sampleEnv : Env :=
  ⟨["ape-trezor", "other"], ["ape_solidity", "ape_trezor"], fun _ => none,
   true, ["uv", "pip"]⟩

/-- An environment whose registry publishes a module name containing `@` and
`+` characters; used to exhibit a key collision in `from_package_names`. -/
def collisionEnv : Env :=
  ⟨[], ["ape_test@git+test"], fun _ => none, true, ["uv", "pip"]⟩

/-- The package list exhibiting the key collision: both entries have the
dictionary key `"test@git+ape-test"`, but the first parses to plugin name
`"test"` (a core plugin) while the second keeps name `"test@git+test"`
(available from `collisionEnv`'s registry). -/
def collisionPackages : List String :=
  ["test@git+ape-test", "test@git+ape-test==1.0"]

/-- The groups produced on the collision input. -/
def collisionGroups : Groups :=
  (fromPackageNames collisionEnv collisionPackages true none).toOption.getD
    ⟨[], [], [], []⟩

/-- A sample package list over `sampleEnv` covering all four outcomes. -/
def samplePackages : List String :=
  ["test", "trezor==0.5", "solidity", "unknown"]

/-- The groups produced on the sample input. -/
def sampleGroups : Groups :=
  (fromPackageNames sampleEnv samplePackages true none).toOption.getD
    ⟨[], [], [], []⟩

/-- The dictionary returned by `_prepare_install` for an upgrade of
`trezor` under `sampleEnv`. -/
def sampleUpgradeResult : List (String × PrepValue) :=
  ((prepareInstall sampleEnv ⟨0, 8⟩ ⟨"trezor", none, ["uv", "pip"]⟩ true false
      none).toOption.getD none).getD []

/-! ## Character and string lemmas -/

lemma toList_mk (l : List Char) : (String.mk l).toList = l := rfl

lemma toList_append (a b : String) : (a ++ b).toList = a.toList ++ b.toList := by
  cases a; cases b; rfl

lemma strContains_subset {s sub : String} (h : strContains s sub = true) :
    ∀ c ∈ sub.toList, c ∈ s.toList := by
  intro c hc
  unfold strContains at h
  rw [List.any_eq_true] at h
  obtain ⟨t, ht, hpre⟩ := h
  rw [List.isPrefixOf_iff_prefix] at hpre
  rw [List.mem_tails] at ht
  exact ht.subset (hpre.subset hc)

lemma strContains_eq_false {s sub : String} {c : Char} (hc : c ∈ sub.toList)
    (hs : c ∉ s.toList) : strContains s sub = false := by
  cases h : strContains s sub with
  | false => rfl
  | true => exact absurd (strContains_subset h c hc) hs

lemma dropWhile_eq_self {p : Char → Bool} {l : List Char}
    (h : ∀ c ∈ l, p c = false) : l.dropWhile p = l := by
  cases l with
  | nil => rfl
  | cons a as => simp [List.dropWhile, h a (by simp)]

lemma pyStrip_eq_self {s : String}
    (h : ∀ c ∈ s.toList, c.isWhitespace = false) : pyStrip s = s := by
  unfold pyStrip
  rw [dropWhile_eq_self h, dropWhile_eq_self (fun c hc => h c (by
    simpa using hc)), List.reverse_reverse]
  cases s; rfl

lemma pkgChar_not_ws {c : Char} (h : isPackageNameChar c = true) :
    c.isWhitespace = false := by
  by_contra hw
  rw [Bool.not_eq_false] at hw
  unfold Char.isWhitespace at hw
  simp only [Bool.or_eq_true, decide_eq_true_eq] at hw
  rcases hw with ((h1 | h1) | h1) | h1 <;> subst h1 <;> exact absurd h (by decide)

lemma plainName_mem {s : String} (h : plainName s = true) :
    ∀ c ∈ s.toList, isPackageNameChar c = true := by
  intro c hc
  unfold plainName at h
  rw [List.all_eq_true] at h
  exact h c hc

lemma plainName_not_mem {s : String} {c : Char} (h : plainName s = true)
    (hc : isPackageNameChar c = false) : c ∉ s.toList := by
  intro hmem
  rw [plainName_mem h c hmem] at hc
  simp at hc

lemma plainName_not_git {s : String} (h : plainName s = true) :
    strStartsWith s "git+" = false := by
  cases hi : strStartsWith s "git+" with
  | false => rfl
  | true =>
    unfold strStartsWith at hi
    rw [List.isPrefixOf_iff_prefix] at hi
    have hplus : '+' ∈ s.toList := hi.subset (by decide)
    exact absurd hplus (plainName_not_mem h (by decide))

lemma replaceList_mem {fuel : Nat} {l : List Char} {p0 : Char}
    {ps rep : List Char} {c : Char} (h : c ∈ replaceList fuel l p0 ps rep) :
    c ∈ l ∨ c ∈ rep := by
  induction fuel generalizing l with
  | zero => exact Or.inl h
  | succ fuel ih =>
    cases l with
    | nil => simp [replaceList] at h
    | cons a as =>
      rw [replaceList] at h
      split at h
      · rcases List.mem_append.mp h with h1 | h1
        · exact Or.inr h1
        · rcases ih h1 with h2 | h2
          · exact Or.inl (List.mem_cons_of_mem a (List.mem_of_mem_drop h2))
          · exact Or.inr h2
      · rcases List.mem_cons.mp h with h1 | h1
        · exact Or.inl (h1 ▸ List.mem_cons_self a as)
        · rcases ih h1 with h2 | h2
          · exact Or.inl (List.mem_cons_of_mem a h2)
          · exact Or.inr h2

lemma strReplace_mem {s pat rep : String} {c : Char}
    (h : c ∈ (strReplace s pat rep).toList) : c ∈ s.toList ∨ c ∈ rep.toList := by
  unfold strReplace at h
  split at h
  · exact Or.inl h
  · exact replaceList_mem (by simpa using h)

/-! ## Validator lemmas -/

lemma clean_plain {n : String} (h : plainName n = true) :
    ∀ c ∈ (clean_plugin_name n).toList, isPackageNameChar c = true := by
  intro c hc
  unfold clean_plugin_name at hc
  rcases strReplace_mem hc with h1 | h1
  · rcases strReplace_mem h1 with h2 | h2
    · exact plainName_mem h c h2
    · have : c = '-' := by simpa using h2
      subst this; decide
  · simp at h1

lemma module_plain {n : String} (h : plainName n = true) :
    ∀ c ∈ ("ape_" ++ strReplace (clean_plugin_name n) "-" "_").toList,
      isPackageNameChar c = true := by
  intro c hc
  rw [toList_append] at hc
  rcases List.mem_append.mp hc with h1 | h1
  · have : c = 'a' ∨ c = 'p' ∨ c = 'e' ∨ c = '_' := by simpa using h1
    rcases this with h2 | h2 | h2 | h2 <;> subst h2 <;> decide
  · rcases strReplace_mem h1 with h2 | h2
    · exact clean_plain h c h2
    · have : c = '_' := by simpa using h2
      subst this; decide

lemma pyStrip_module {n : String} (h : plainName n = true) :
    pyStrip ("ape_" ++ strReplace (clean_plugin_name n) "-" "_") =
      "ape_" ++ strReplace (clean_plugin_name n) "-" "_" :=
  pyStrip_eq_self (fun c hc => pkgChar_not_ws (module_plain h c hc))

lemma inCore_clean {n : String} (version : Option String) (cmd : List String)
    (h : plainName n = true) :
    inCore ⟨clean_plugin_name n, version, cmd⟩ =
      CORE_PLUGINS.contains ("ape_" ++ strReplace (clean_plugin_name n) "-" "_") := by
  unfold inCore moduleName
  rw [pyStrip_module h]

lemma validateName_plain {n : String} {version : Option String}
    {cmd : List String} (h1 : plainName n = true)
    (h2 : ∀ v, version = some v → strStartsWith v "git+" = false) :
    validateName n version cmd = Except.ok ⟨clean_plugin_name n, version, cmd⟩ := by
  unfold validateName
  simp only [plainName_not_git h1, Bool.false_eq_true, if_false]
  have hc1 : strContains n "==" = false :=
    strContains_eq_false (c := '=') (by decide) (plainName_not_mem h1 (by decide))
  have hc2 : strContains n "<=" = false :=
    strContains_eq_false (c := '<') (by decide) (plainName_not_mem h1 (by decide))
  have hc3 : strContains n ">=" = false :=
    strContains_eq_false (c := '>') (by decide) (plainName_not_mem h1 (by decide))
  have hc4 : strContains n "@git+" = false :=
    strContains_eq_false (c := '@') (by decide) (plainName_not_mem h1 (by decide))
  cases hv : version with
  | none => simp [optTruthy, hc1, hc2, hc3, hc4]
  | some v => simp [optTruthy, h2 v hv, hc1, hc2, hc3, hc4]

/-! ## Classification lemmas -/

lemma map_fst_dictInsert (d : List (String × PluginMetadata)) (k : String)
    (v : PluginMetadata) :
    (dictInsert d k v).map Prod.fst = keyInsert (d.map Prod.fst) k := by
  unfold dictInsert keyInsert
  have hany : (d.map Prod.fst).any (fun x => x == k) = d.any (fun kv => kv.1 == k) := by
    induction d with
    | nil => rfl
    | cons a as ih => simp only [List.map_cons, List.any_cons, ih]
  rw [hany]
  split
  · rw [List.map_map]
    apply List.map_congr_left
    intro kv _
    by_cases h : kv.1 = k <;> simp [h]
  · simp

lemma keysGroups_applyStep (acc : Groups) (k : String) (v : PluginMetadata)
    (o : Option PluginType) :
    keysGroups (applyStep acc k v o) =
      (match o with
       | some PluginType.core =>
           { keysGroups acc with core := keyInsert (keysGroups acc).core k }
       | some PluginType.available =>
           { keysGroups acc with available := keyInsert (keysGroups acc).available k }
       | some PluginType.installed =>
           { keysGroups acc with installed := keyInsert (keysGroups acc).installed k }
       | some PluginType.thirdParty =>
           { keysGroups acc with thirdParty := keyInsert (keysGroups acc).thirdParty k }
       | none => keysGroups acc) := by
  cases o with
  | none => rfl
  | some t => cases t <;> simp [applyStep, keysGroups, map_fst_dictInsert]

lemma classifyBody_plain (env : Env) (ia : Bool) (tl : Option (List String))
    (acc : Groups) (n : String) (ver : Option String)
    (hn : plainName (pyStrip n) = true)
    (hv : ∀ v, ver = some v → strStartsWith v "git+" = false) :
    classifyBody env ia tl acc n ver =
      Except.ok (applyStep acc n
        ⟨clean_plugin_name (pyStrip n), ver, env.pipCommand⟩
        (refClassifyName env ia tl n)) := by
  unfold classifyBody refClassifyName
  rw [validateName_plain hn hv]
  dsimp only
  rw [inCore_clean ver env.pipCommand hn]
  have hinst : checkInstalled env ⟨clean_plugin_name (pyStrip n), ver, env.pipCommand⟩ =
      (env.dists.filter (fun x => strStartsWith x "ape-")).any
        (fun x => x == "ape-" ++ clean_plugin_name (pyStrip n)) := rfl
  have havail : isAvailable env ⟨clean_plugin_name (pyStrip n), ver, env.pipCommand⟩ =
      env.availablePlugins.contains
        ("ape_" ++ strReplace (clean_plugin_name (pyStrip n)) "-" "_") := rfl
  have htrust : checkTrusted env false tl ⟨clean_plugin_name (pyStrip n), ver, env.pipCommand⟩ =
      (match tl with
       | none => TRUSTED_PLUGINS
       | some [] => TRUSTED_PLUGINS
       | some l => l).contains (clean_plugin_name (pyStrip n)) := by
    unfold checkTrusted
    simp
  rw [hinst, havail, htrust]
  cases hC : CORE_PLUGINS.contains
      ("ape_" ++ strReplace (clean_plugin_name (pyStrip n)) "-" "_") with
  | true => simp [applyStep]
  | false =>
    cases hI : (env.dists.filter (fun x => strStartsWith x "ape-")).any
        (fun x => x == "ape-" ++ clean_plugin_name (pyStrip n)) with
    | true =>
      cases hA : env.availablePlugins.contains
          ("ape_" ++ strReplace (clean_plugin_name (pyStrip n)) "-" "_") with
      | true =>
        cases hT : (match tl with
           | none => TRUSTED_PLUGINS
           | some [] => TRUSTED_PLUGINS
           | some l => l).contains (clean_plugin_name (pyStrip n)) with
        | true => cases ia <;> simp [applyStep]
        | false => cases ia <;> simp [applyStep]
      | false =>
        cases hT : (match tl with
           | none => TRUSTED_PLUGINS
           | some [] => TRUSTED_PLUGINS
           | some l => l).contains (clean_plugin_name (pyStrip n)) with
        | true => cases ia <;> simp [applyStep]
        | false => cases ia <;> simp [applyStep]
    | false =>
      cases hA : env.availablePlugins.contains
          ("ape_" ++ strReplace (clean_plugin_name (pyStrip n)) "-" "_") with
      | true => cases ia <;> simp [applyStep]
      | false => cases ia <;> simp [applyStep]

lemma classifyStep_wf (env : Env) (ia : Bool) (tl : Option (List String))
    (acc : Groups) (pid : String) (hwf : wfEntry pid = true) :
    ∃ acc', classifyStep env ia tl acc pid = Except.ok acc' ∧
      keysGroups acc' = refKeyStep env ia tl (keysGroups acc) pid := by
  unfold wfEntry at hwf
  cases hsp : strSplitOn pid "==" with
  | nil => rw [hsp] at hwf; simp at hwf
  | cons a t =>
    cases t with
    | nil =>
      rw [hsp] at hwf
      have hn : plainName (pyStrip a) = true := hwf
      have hpe : parseEntry pid = (a, none) := by
        unfold parseEntry; rw [hsp]; rfl
      refine ⟨applyStep acc a ⟨clean_plugin_name (pyStrip a), none, env.pipCommand⟩
        (refClassifyName env ia tl a), ?_, ?_⟩
      · unfold classifyStep
        rw [hpe]
        exact classifyBody_plain env ia tl acc a none hn (fun v h => by cases h)
      · simp only [refKeyStep]
        rw [hpe]
        exact keysGroups_applyStep acc a _ _
    | cons b t2 =>
      cases t2 with
      | nil =>
        rw [hsp] at hwf
        have hwf2 : (plainName (pyStrip a) && !strStartsWith b "git+") = true := hwf
        rw [Bool.and_eq_true] at hwf2
        obtain ⟨hn, hb⟩ := hwf2
        rw [Bool.not_eq_true'] at hb
        have hpe : parseEntry pid = (a, some b) := by
          unfold parseEntry; rw [hsp]
        refine ⟨applyStep acc a ⟨clean_plugin_name (pyStrip a), some b, env.pipCommand⟩
          (refClassifyName env ia tl a), ?_, ?_⟩
        · unfold classifyStep
          rw [hpe]
          exact classifyBody_plain env ia tl acc a (some b) hn
            (fun v h => by cases h; exact hb)
        · simp only [refKeyStep]
          rw [hpe]
          exact keysGroups_applyStep acc a _ _
      | cons c t3 =>
        rw [hsp] at hwf
        simp at hwf

lemma foldl_classify (env : Env) (ia : Bool) (tl : Option (List String))
    (packages : List String) :
    ∀ acc : Groups, (∀ pid ∈ packages, wfEntry pid = true) →
      ∃ g, packages.foldlM (classifyStep env ia tl) acc = Except.ok g ∧
        keysGroups g = packages.foldl (refKeyStep env ia tl) (keysGroups acc) := by
  induction packages with
  | nil => exact fun acc _ => ⟨acc, rfl, rfl⟩
  | cons pid rest ih =>
    intro acc h
    obtain ⟨acc', hstep, hkeys⟩ :=
      classifyStep_wf env ia tl acc pid (h pid (by simp))
    obtain ⟨g, hfold, hkeys2⟩ := ih acc' (fun q hq => h q (by simp [hq]))
    refine ⟨g, ?_, ?_⟩
    · rw [List.foldlM_cons, hstep]
      exact hfold
    · rw [List.foldl_cons, ← hkeys]
      exact hkeys2

lemma mem_keyInsert {ks : List String} {k0 k : String}
    (h : k ∈ keyInsert ks k0) : k ∈ ks ∨ k = k0 := by
  unfold keyInsert at h
  split at h
  · exact Or.inl h
  · rcases List.mem_append.mp h with h1 | h1
    · exact Or.inl h1
    · exact Or.inr (by simpa using h1)

lemma refFold_classified (env : Env) (ia : Bool) (tl : Option (List String))
    (packages : List String) :
    ∀ kacc : KeyGroups,
      (∀ k ∈ kacc.core, refClassifyName env ia tl k = some PluginType.core) →
      (∀ k ∈ kacc.available, refClassifyName env ia tl k = some PluginType.available) →
      (∀ k ∈ kacc.installed, refClassifyName env ia tl k = some PluginType.installed) →
      (∀ k ∈ kacc.thirdParty, refClassifyName env ia tl k = some PluginType.thirdParty) →
      ((∀ k ∈ (packages.foldl (refKeyStep env ia tl) kacc).core,
          refClassifyName env ia tl k = some PluginType.core) ∧
       (∀ k ∈ (packages.foldl (refKeyStep env ia tl) kacc).available,
          refClassifyName env ia tl k = some PluginType.available) ∧
       (∀ k ∈ (packages.foldl (refKeyStep env ia tl) kacc).installed,
          refClassifyName env ia tl k = some PluginType.installed) ∧
       (∀ k ∈ (packages.foldl (refKeyStep env ia tl) kacc).thirdParty,
          refClassifyName env ia tl k = some PluginType.thirdParty)) := by
  induction packages with
  | nil => exact fun kacc h1 h2 h3 h4 => ⟨h1, h2, h3, h4⟩
  | cons pid rest ih =>
    intro kacc h1 h2 h3 h4
    rw [List.foldl_cons]
    simp only [refKeyStep]
    cases hc : refClassifyName env ia tl (parseEntry pid).1 with
    | none => exact ih kacc h1 h2 h3 h4
    | some t =>
      cases t with
      | core =>
        refine ih _ ?_ h2 h3 h4
        intro k hk
        rcases mem_keyInsert hk with hm | hm
        · exact h1 k hm
        · rw [hm]; exact hc
      | available =>
        refine ih _ h1 ?_ h3 h4
        intro k hk
        rcases mem_keyInsert hk with hm | hm
        · exact h2 k hm
        · rw [hm]; exact hc
      | installed =>
        refine ih _ h1 h2 ?_ h4
        intro k hk
        rcases mem_keyInsert hk with hm | hm
        · exact h3 k hm
        · rw [hm]; exact hc
      | thirdParty =>
        refine ih _ h1 h2 h3 ?_
        intro k hk
        rcases mem_keyInsert hk with hm | hm
        · exact h4 k hm
        · rw [hm]; exact hc

lemma keysDisjoint_eq_true {a b : List String} (h : ∀ k ∈ a, k ∉ b) :
    keysDisjoint a b = true := by
  unfold keysDisjoint
  rw [List.all_eq_true]
  intro k hk
  rw [Bool.not_eq_true']
  rw [List.any_eq_false]
  intro x hx he
  exact h k hk ((eq_of_beq he) ▸ hx)

/-! ## Lemmas for `_split_name_and_version` -/

lemma mk_append (a b : List Char) : String.mk a ++ String.mk b = String.mk (a ++ b) := rfl

lemma mk_toList (s : String) : String.mk s.toList = s := rfl

lemma foldl_min_mem (js : List Nat) (j : Nat) : js.foldl min j ∈ j :: js := by
  induction js generalizing j with
  | nil => simp
  | cons x xs ih =>
    rw [List.foldl_cons]
    rcases List.mem_cons.mp (ih (min j x)) with h | h
    · rcases Nat.le_total j x with hle | hle
      · rw [h, Nat.min_eq_left hle]; exact List.mem_cons_self _ _
      · rw [h, Nat.min_eq_right hle]
        exact List.mem_cons_of_mem _ (List.mem_cons_self _ _)
    · exact List.mem_cons_of_mem _ (List.mem_cons_of_mem _ h)

lemma foldl_min_le (js : List Nat) (j : Nat) : ∀ k ∈ j :: js, js.foldl min j ≤ k := by
  induction js generalizing j with
  | nil =>
    intro k hk
    have : k = j := by simpa using hk
    simp [this]
  | cons x xs ih =>
    intro k hk
    rw [List.foldl_cons]
    rcases List.mem_cons.mp hk with h | h
    · rw [h]
      exact Nat.le_trans (ih (min j x) (min j x) (List.mem_cons_self _ _))
        (Nat.min_le_left _ _)
    · rcases List.mem_cons.mp h with h2 | h2
      · rw [h2]
        exact Nat.le_trans (ih (min j x) (min j x) (List.mem_cons_self _ _))
          (Nat.min_le_right _ _)
      · exact ih (min j x) k (List.mem_cons_of_mem _ h2)

lemma findIdx_le_of_mem {l : List Char} {p : Char → Bool} {j : Nat}
    (hj : j < l.length) (h : p (l.get ⟨j, hj⟩) = true) : l.findIdx p ≤ j := by
  by_contra hlt
  push_neg at hlt
  have hfalse := List.not_of_lt_findIdx hlt
  have h2 : p l[j] = true := by simpa using h
  rw [h2] at hfalse
  simp at hfalse

lemma take_not_special (value : String) (j : Nat) (js : List Nat)
    (hm : (['=', '<', '>'].filter (fun c => strContainsChar value c)).map
        (fun c => value.toList.findIdx (fun a => a = c)) = j :: js) :
    ∀ c, c ∈ ['=', '<', '>'] → c ∉ value.toList.take (js.foldl min j) := by
  intro c h3 hctake
  obtain ⟨jx, hjx, hjeq⟩ := List.getElem_of_mem hctake
  have hjx1 : jx < js.foldl min j := by
    rw [List.length_take] at hjx
    omega
  have hjxlen : jx < value.toList.length := by
    rw [List.length_take] at hjx
    rcases Nat.lt_or_ge (js.foldl min j) value.toList.length with hlt | hge
    · omega
    · omega
  have hlj : value.toList[jx] = c := by
    rw [← hjeq, List.getElem_take]
  have hccont : strContainsChar value c = true :=
    List.elem_iff.mpr (List.take_subset _ _ hctake)
  have hge : js.foldl min j ≤ value.toList.findIdx (fun a => a = c) := by
    apply foldl_min_le js j
    rw [← hm]
    exact List.mem_map.mpr ⟨c, List.mem_filter.mpr ⟨h3, hccont⟩, rfl⟩
  have hfle : value.toList.findIdx (fun a => a = c) ≤ jx :=
    findIdx_le_of_mem hjxlen
      (by simp only [List.get_eq_getElem, decide_eq_true_eq]; exact hlj)
  omega

/-- C9: for a value without `@` that contains at least one of `=`, `<`, `>`,
`_split_name_and_version` returns a pair `(name, some rest)` with
`name ++ rest = value`, `name` free of all three characters, and `rest`
beginning with one of them (so `name` is exactly the prefix of `value`
before the first such character); for a value containing none of `@`, `=`,
`<`, `>`, it returns `(value, none)`. -/
theorem c9_split_name_and_version (value : String)
    (hAt : strContainsChar value '@' = false) :
    ((strContainsChar value '=' || strContainsChar value '<' ||
        strContainsChar value '>') = true →
      ∃ name rest, _split_name_and_version value = (name, some rest) ∧
        name ++ rest = value ∧
        (∀ c ∈ name.toList, c ≠ '=' ∧ c ≠ '<' ∧ c ≠ '>') ∧
        (∃ c0 t, rest.toList = c0 :: t ∧ (c0 = '=' ∨ c0 = '<' ∨ c0 = '>')))
  ∧ ((strContainsChar value '=' || strContainsChar value '<' ||
        strContainsChar value '>') = false →
      _split_name_and_version value = (value, none)) := by
  constructor
  · intro hpresent
    unfold _split_name_and_version
    simp only [hAt, Bool.false_eq_true, if_false]
    cases hm : (['=', '<', '>'].filter (fun c => strContainsChar value c)).map
        (fun c => value.toList.findIdx (fun a => a = c)) with
    | nil =>
      exfalso
      rw [List.map_eq_nil_iff] at hm
      simp only [Bool.or_eq_true] at hpresent
      rcases hpresent with (h1 | h1) | h1
      · have : '=' ∈ ([] : List Char) := by
          rw [← hm]; exact List.mem_filter.mpr ⟨by simp, h1⟩
        simp at this
      · have : '<' ∈ ([] : List Char) := by
          rw [← hm]; exact List.mem_filter.mpr ⟨by simp, h1⟩
        simp at this
      · have : '>' ∈ ([] : List Char) := by
          rw [← hm]; exact List.mem_filter.mpr ⟨by simp, h1⟩
        simp at this
    | cons j js =>
      have hmap : ∀ k ∈ j :: js, ∃ c, (c ∈ ['=', '<', '>'] ∧
          strContainsChar value c = true) ∧
          value.toList.findIdx (fun a => a = c) = k := by
        intro k hk
        rw [← hm] at hk
        obtain ⟨c, hc, hfc⟩ := List.mem_map.mp hk
        rw [List.mem_filter] at hc
        exact ⟨c, hc, hfc⟩
      obtain ⟨cstar, ⟨hcstar3, hcstarcont⟩, hcstarIdx⟩ :=
        hmap _ (foldl_min_mem js j)
      have hcstarmem : cstar ∈ value.toList := List.elem_iff.mp hcstarcont
      have hilen : js.foldl min j < value.toList.length := by
        rw [← hcstarIdx]
        exact List.findIdx_lt_length_of_exists ⟨cstar, hcstarmem, by simp⟩
      have hgeti : value.toList[js.foldl min j] = cstar := by
        have hw : value.toList.findIdx (fun a => a = cstar) <
            value.toList.length := by rw [hcstarIdx]; exact hilen
        have := @List.findIdx_getElem Char (fun a => a = cstar) value.toList hw
        rw [decide_eq_true_eq] at this
        simp only [hcstarIdx] at this
        exact this
      refine ⟨String.mk (value.toList.take (js.foldl min j)),
        String.mk (value.toList.drop (js.foldl min j)), rfl, ?_, ?_, ?_⟩
      · rw [mk_append, List.take_append_drop]
        exact mk_toList value
      · intro c hc
        rw [toList_mk] at hc
        refine ⟨?_, ?_, ?_⟩
        · intro he
          exact take_not_special value j js hm '=' (by simp) (he ▸ hc)
        · intro he
          exact take_not_special value j js hm '<' (by simp) (he ▸ hc)
        · intro he
          exact take_not_special value j js hm '>' (by simp) (he ▸ hc)
      · refine ⟨cstar, value.toList.drop (js.foldl min j + 1), ?_, ?_⟩
        · rw [toList_mk, List.drop_eq_getElem_cons hilen, hgeti]
        · simpa using hcstar3
  · intro habsent
    unfold _split_name_and_version
    simp only [hAt, Bool.false_eq_true, if_false]
    have h1 : strContainsChar value '=' = false := by
      cases h : strContainsChar value '=' with
      | false => rfl
      | true => rw [h] at habsent; simp at habsent
    have h2 : strContainsChar value '<' = false := by
      cases h : strContainsChar value '<' with
      | false => rfl
      | true => rw [h] at habsent; simp at habsent
    have h3 : strContainsChar value '>' = false := by
      cases h : strContainsChar value '>' with
      | false => rfl
      | true => rw [h] at habsent; simp at habsent
    have hfil : ['=', '<', '>'].filter (fun c => strContainsChar value c) = [] := by
      simp [List.filter_cons, h1, h2, h3]
    rw [hfil]
    rfl

lemma toList_ne_nil {s : String} (h : s ≠ "") : s.toList ≠ [] := by
  cases s with
  | mk l =>
    intro he
    apply h
    rw [show l = [] from he]

lemma optTruthy_some_of_ne {v : String} (h : v ≠ "") :
    optTruthy (some v) = true := by
  unfold optTruthy
  rw [decide_eq_true_eq]
  exact toList_ne_nil h

lemma startsWith_git_ne_empty {v : String} (h : strStartsWith v "git+" = true) :
    v.toList ≠ [] := by
  intro he
  unfold strStartsWith at h
  rw [he] at h
  simp [List.isPrefixOf] at h

/-! ## Claim theorems -/

/-- C8: `would_get_downgraded` returns `True` iff Ape's major version is `0`
and some specifier in the parsed set has operator `==`, `<` or `<=` with a
version whose minor component is strictly below Ape's minor; in particular
it returns `False` for every specifier set when Ape's major is at least 1. -/
theorem c8_would_get_downgraded (ap : ApeVer) (s : String)
    (specSet : List Specifier) (hp : parseSpecifierSet s = some specSet) :
    (wouldGetDowngraded ap specSet = true ↔
      (ap.major = 0 ∧ ∃ sp ∈ specSet,
        (sp.1 = "==" ∨ sp.1 = "<" ∨ sp.1 = "<=") ∧ releaseMinor sp.2 < ap.minor))
  ∧ (1 ≤ ap.major → wouldGetDowngraded ap specSet = false) := by
  constructor
  · unfold wouldGetDowngraded isPreOne
    rw [List.any_eq_true]
    constructor
    · rintro ⟨sp, hmem, hsp⟩
      simp only [Bool.and_eq_true, Bool.or_eq_true, decide_eq_true_eq] at hsp
      obtain ⟨hop, hcase⟩ := hsp
      rcases hcase with ⟨hpre, hmaj⟩ | ⟨hpre, hmin⟩
      · omega
      · exact ⟨hpre, sp, hmem, or_assoc.mp hop, hmin⟩
    · rintro ⟨hmaj0, sp, hmem, hop, hmin⟩
      refine ⟨sp, hmem, ?_⟩
      simp only [Bool.and_eq_true, Bool.or_eq_true, decide_eq_true_eq]
      exact ⟨or_assoc.mpr hop, Or.inr ⟨hmaj0, hmin⟩⟩
  · intro h1
    unfold wouldGetDowngraded isPreOne
    rw [List.any_eq_false]
    intro sp _
    have : (decide (ap.major = 0)) = false := by
      rw [decide_eq_false_iff_not]
      omega
    simp [this]

/-- C2: `install_str` returns a `git+` version verbatim; a plain version
with none of `=`, `<`, `>` is normalised to `==version` and then raises
`PluginVersionError` exactly when `would_get_downgraded` holds of the
normalised specifier (otherwise the package name concatenated with the
normalised version is returned); a constrained version raises exactly when
`would_get_downgraded` holds of it; and with no version requested the
result is the package name immediately followed by
`ape_version.version_range`. -/
theorem c2_install_str (ap : ApeVer) (p : PluginMetadata) :
    (∀ v, p.version = some v → strStartsWith v "git+" = true →
      installStr ap p = Except.ok v)
  ∧ (∀ v specSet, p.version = some v → v ≠ "" →
      strStartsWith v "git+" = false →
      (strContainsChar v '=' || strContainsChar v '<' ||
        strContainsChar v '>') = false →
      parseSpecifierSet ("==" ++ v) = some specSet →
      installStr ap p =
        (if wouldGetDowngraded ap specSet then
          Except.error InstallError.pluginVersion
        else Except.ok (packageName p ++ ("==" ++ v))))
  ∧ (∀ v specSet, p.version = some v → v ≠ "" →
      strStartsWith v "git+" = false →
      (strContainsChar v '=' || strContainsChar v '<' ||
        strContainsChar v '>') = true →
      parseSpecifierSet v = some specSet →
      installStr ap p =
        (if wouldGetDowngraded ap specSet then
          Except.error InstallError.pluginVersion
        else Except.ok (packageName p ++ v)))
  ∧ (p.version = none →
      installStr ap p = Except.ok (packageName p ++ versionRange ap)) := by
  refine ⟨?_, ?_, ?_, ?_⟩
  · intro v hv hg
    unfold installStr
    rw [hv]
    have ht : optTruthy (some v) = true := by
      unfold optTruthy
      rw [decide_eq_true_eq]
      exact startsWith_git_ne_empty hg
    simp [ht, hg]
  · intro v specSet hv hne hg hchars hp
    unfold installStr
    rw [hv]
    simp only [Option.getD_some]
    rw [optTruthy_some_of_ne hne, hg]
    simp only [Bool.true_and, Bool.and_false, Bool.false_eq_true, if_false,
      if_true]
    rw [hchars]
    simp only [Bool.not_false, if_true]
    rw [hp]
  · intro v specSet hv hne hg hchars hp
    unfold installStr
    rw [hv]
    simp only [Option.getD_some]
    rw [optTruthy_some_of_ne hne, hg]
    simp only [Bool.true_and, Bool.and_false, Bool.false_eq_true, if_false,
      if_true]
    rw [hchars]
    simp only [Bool.not_true, Bool.false_eq_true, if_false]
    rw [hp]
  · intro hv
    unfold installStr
    rw [hv]
    simp [optTruthy]

/-- C5: with a `uv` pip command the built arguments are the base command,
the verb, then `--python` and the location (when one is given), then the
extra arguments; with a non-`uv` (pip) command `--python` and the location
come before the verb; and with no python location both commands produce
base command, verb, extra arguments. -/
theorem c5_prepare_package_manager_args (p : PluginMetadata) (verb : String)
    (loc : String) (extraArgs : Option (List String))
    (hcmd : p.pipCommand ≠ []) :
    (p.pipCommand.headD "" = "uv" → loc ≠ "" →
      preparePackageManagerArgs p verb (some loc) extraArgs =
        p.pipCommand ++ [verb, "--python", loc] ++ optList extraArgs)
  ∧ (p.pipCommand.headD "" ≠ "uv" → loc ≠ "" →
      preparePackageManagerArgs p verb (some loc) extraArgs =
        p.pipCommand ++ ["--python", loc, verb] ++ optList extraArgs)
  ∧ (preparePackageManagerArgs p verb none extraArgs =
      p.pipCommand ++ [verb] ++ optList extraArgs) := by
  refine ⟨?_, ?_, ?_⟩
  · intro huv hloc
    unfold preparePackageManagerArgs
    dsimp only
    rw [huv, optTruthy_some_of_ne hloc]
    simp
  · intro huv hloc
    unfold preparePackageManagerArgs
    dsimp only
    rw [optTruthy_some_of_ne hloc, if_neg huv]
    simp
  · unfold preparePackageManagerArgs
    dsimp only
    by_cases huv : p.pipCommand.headD "" = "uv"
    · rw [if_pos huv]
      simp [optTruthy]
    · rw [if_neg huv]
      simp [optTruthy]

/-- C6: `_get_uninstall_args` is the `uninstall` package-manager arguments,
then `-y` exactly when the pip command's first element is not `uv`, then
the package name and `--quiet`; in particular the result always ends with
the package name followed by `--quiet`. -/
theorem c6_get_uninstall_args (p : PluginMetadata) (loc : Option String)
    (hcmd : p.pipCommand ≠ []) :
    getUninstallArgs p loc =
      preparePackageManagerArgs p "uninstall" loc none ++
        (if p.pipCommand.headD "" ≠ "uv" then ["-y"] else []) ++
        [packageName p, "--quiet"]
  ∧ ∃ front, getUninstallArgs p loc = front ++ [packageName p, "--quiet"] := by
  have h1 : getUninstallArgs p loc =
      preparePackageManagerArgs p "uninstall" loc none ++
        (if p.pipCommand.headD "" ≠ "uv" then ["-y"] else []) ++
        [packageName p, "--quiet"] := by
    unfold getUninstallArgs
    dsimp only
    by_cases huv : p.pipCommand.headD "" = "uv"
    · simp only [if_neg (not_not_intro huv)]
      simp
    · simp only [if_pos huv]
  exact ⟨h1, _, h1⟩

/-- C10: command construction is deterministic: two plugins with equal
name, version and pip-command fields produce equal package-manager argument
lists and equal uninstall argument lists for equal inputs (the embedded
functions consult no other state). -/
theorem c10_deterministic (p1 p2 : PluginMetadata) (hn : p1.name = p2.name)
    (hv : p1.version = p2.version) (hc : p1.pipCommand = p2.pipCommand) :
    (∀ verb loc extraArgs,
      preparePackageManagerArgs p1 verb loc extraArgs =
        preparePackageManagerArgs p2 verb loc extraArgs)
  ∧ (∀ loc, getUninstallArgs p1 loc = getUninstallArgs p2 loc) := by
  have h : p1 = p2 := by
    cases p1; cases p2
    simp_all
  rw [h]
  exact ⟨fun _ _ _ => rfl, fun _ => rfl⟩

/-- C3: `_prepare_install` produces no command for a core plugin, and none
when a version is specified together with `upgrade=True`; every returned
dictionary carries a pip argument list under the key `"args"`. -/
theorem c3_prepare_install (env : Env) (ap : ApeVer) (p : PluginMetadata)
    (upgrade skipConfirmation : Bool) (loc : Option String) :
    (inCore p = true →
      prepareInstall env ap p upgrade skipConfirmation loc = Except.ok none)
  ∧ (p.version ≠ none → upgrade = true →
      prepareInstall env ap p upgrade skipConfirmation loc = Except.ok none)
  ∧ (∀ res, prepareInstall env ap p upgrade skipConfirmation loc =
        Except.ok (some res) →
      ∃ l, List.lookup "args" res = some (PrepValue.args l)) := by
  refine ⟨?_, ?_, ?_⟩
  · intro h
    unfold prepareInstall
    simp [h]
  · intro hver hup
    unfold prepareInstall
    by_cases hcore : inCore p = true
    · simp [hcore]
    · have : p.version.isSome = true := Option.ne_none_iff_isSome.mp hver
      simp [hcore, this, hup]
  · intro res h
    unfold prepareInstall at h
    split at h
    · simp at h
    · split at h
      · simp at h
      · split at h
        · rw [Except.ok.injEq, Option.some.injEq] at h
          exact ⟨_, by rw [← h]; rfl⟩
        · split at h
          · split at h
            · simp at h
            · rw [Except.ok.injEq, Option.some.injEq] at h
              exact ⟨_, by rw [← h]; rfl⟩
          · simp at h

/-- C4: upgrading a non-core plugin with no explicit version returns the
`install` package-manager arguments extended by `--upgrade`, the package
name immediately concatenated with `ape_version.version_range` (which is
`>=0.m,<0.(m+1)` for pre-1.0 Ape and `>=M,<(M+1)` otherwise), and
`--quiet`. -/
theorem c4_prepare_install_upgrade (env : Env) (ap : ApeVer)
    (p : PluginMetadata) (skipConfirmation : Bool) (loc : Option String)
    (hcore : inCore p = false) (hver : p.version = none)
    (hcmd : p.pipCommand ≠ []) :
    ∃ res, prepareInstall env ap p true skipConfirmation loc =
        Except.ok (some res) ∧
      List.lookup "args" res = some (PrepValue.args
        (preparePackageManagerArgs p "install" loc none ++
          ["--upgrade",
           packageName p ++
             (if ap.major = 0 then
               ">=0." ++ toString ap.minor ++ ",<0." ++ toString (ap.minor + 1)
             else
               ">=" ++ toString ap.major ++ ",<" ++ toString (ap.major + 1)),
           "--quiet"])) := by
  unfold prepareInstall
  rw [hcore, hver]
  simp only [Option.isSome_none, Bool.false_and, Bool.false_eq_true, if_false,
    if_true]
  exact ⟨_, rfl, rfl⟩

/-- C1: on any list of package-name entries (optionally suffixed
`==version`), `from_package_names` succeeds and files every entry's key
exactly as the reference classification does: core iff the module name
(`ape_` plus the cleaned name with dashes replaced by underscores) is in
`CORE_PLUGINS`; otherwise available iff availability is included, the
module name is in the registry's available set and the plugin is not
installed; otherwise installed iff installed and trusted; otherwise
third-party iff installed; otherwise no group. -/
theorem c1_from_package_names_classification (env : Env)
    (packages : List String) (includeAvailable : Bool)
    (trustedList : Option (List String))
    (hwf : ∀ pid ∈ packages, wfEntry pid = true) :
    ∃ g, fromPackageNames env packages includeAvailable trustedList =
        Except.ok g ∧
      keysGroups g = referenceKeyGroups env includeAvailable trustedList packages := by
  obtain ⟨g, h1, h2⟩ :=
    foldl_classify env includeAvailable trustedList packages ⟨[], [], [], []⟩ hwf
  exact ⟨g, h1, by rw [h2]; rfl⟩

/-- C7 counterexample: the four groups need not be pairwise disjoint.  On
`collisionEnv` (registry advertising the module name `ape_test@git+test`)
the entries `"test@git+ape-test"` and `"test@git+ape-test==1.0"` share the
dictionary key `"test@git+ape-test"`, the first landing in core (its parsed
name is `test`) and the second in available. -/
theorem c7_counterexample :
    fromPackageNames collisionEnv collisionPackages true none =
      Except.ok collisionGroups ∧
    groupsKeysDisjoint collisionGroups = false := ⟨rfl, rfl⟩

/-- C7 (amended): whenever every entry is a package-name string optionally
suffixed `==version` (in particular, its name part contains none of `@`,
`<`, `>`, `=`), the four groups returned by `from_package_names` have
pairwise disjoint key sets. -/
theorem c7_groups_disjoint (env : Env) (packages : List String)
    (includeAvailable : Bool) (trustedList : Option (List String))
    (g : Groups) (hwf : ∀ pid ∈ packages, wfEntry pid = true)
    (hok : fromPackageNames env packages includeAvailable trustedList =
      Except.ok g) :
    groupsKeysDisjoint g = true := by
  obtain ⟨g0, h1, h2⟩ :=
    foldl_classify env includeAvailable trustedList packages ⟨[], [], [], []⟩ hwf
  have hg : g0 = g := by
    unfold fromPackageNames at hok
    rw [hok] at h1
    exact (Except.ok.injEq _ _).mp h1.symm
  rw [← hg]
  have hkg : keysGroups g0 =
      packages.foldl (refKeyStep env includeAvailable trustedList)
        ⟨[], [], [], []⟩ := by
    rw [h2]; rfl
  obtain ⟨hc, ha, hi, ht⟩ :=
    refFold_classified env includeAvailable trustedList packages
      ⟨[], [], [], []⟩ (fun k hk => absurd hk (List.not_mem_nil k))
      (fun k hk => absurd hk (List.not_mem_nil k))
      (fun k hk => absurd hk (List.not_mem_nil k))
      (fun k hk => absurd hk (List.not_mem_nil k))
  unfold groupsKeysDisjoint
  rw [hkg]
  have hpair : ∀ (x y : List String) (tx ty : PluginType), tx ≠ ty →
      (∀ k ∈ x, refClassifyName env includeAvailable trustedList k = some tx) →
      (∀ k ∈ y, refClassifyName env includeAvailable trustedList k = some ty) →
      keysDisjoint x y = true := by
    intro x y tx ty hne hx hy
    apply keysDisjoint_eq_true
    intro k hkx hky
    have e1 := hx k hkx
    have e2 := hy k hky
    rw [e1] at e2
    exact hne (Option.some.injEq _ _ ▸ e2 : tx = ty)
  rw [hpair _ _ _ _ (by simp) hc ha, hpair _ _ _ _ (by simp) hc hi,
    hpair _ _ _ _ (by simp) hc ht, hpair _ _ _ _ (by simp) ha hi,
    hpair _ _ _ _ (by simp) ha ht, hpair _ _ _ _ (by simp) hi ht]
  rfl

/-! ## Witnesses -/

/-- Witness for C1 on a concrete environment and package list. -/
theorem c1_witness :
    ∃ g, fromPackageNames sampleEnv samplePackages true none = Except.ok g ∧
      keysGroups g = referenceKeyGroups sampleEnv true none samplePackages :=
  c1_from_package_names_classification sampleEnv samplePackages true none
    (by decide)

/-- Witness for C2: all four branches at concrete plugins. -/
theorem c2_witness :
    installStr ⟨0, 8⟩ ⟨"trezor", some "git+https://github.com/x/ape-trezor.git",
        ["uv", "pip"]⟩ =
      Except.ok "git+https://github.com/x/ape-trezor.git" ∧
    installStr ⟨0, 8⟩ ⟨"trezor", some "0.5", ["uv", "pip"]⟩ =
      (if wouldGetDowngraded ⟨0, 8⟩ [("==", [0, 5])] then
        Except.error InstallError.pluginVersion
      else Except.ok (packageName ⟨"trezor", some "0.5", ["uv", "pip"]⟩ ++
        ("==" ++ "0.5"))) ∧
    installStr ⟨0, 8⟩ ⟨"trezor", some ">=0.8,<0.9", ["uv", "pip"]⟩ =
      (if wouldGetDowngraded ⟨0, 8⟩ [(">=", [0, 8]), ("<", [0, 9])] then
        Except.error InstallError.pluginVersion
      else Except.ok (packageName ⟨"trezor", some ">=0.8,<0.9", ["uv", "pip"]⟩ ++
        ">=0.8,<0.9")) ∧
    installStr ⟨0, 8⟩ ⟨"trezor", none, ["uv", "pip"]⟩ =
      Except.ok (packageName ⟨"trezor", none, ["uv", "pip"]⟩ ++
        versionRange ⟨0, 8⟩) :=
  ⟨(c2_install_str ⟨0, 8⟩ _).1 _ rfl (by decide),
   (c2_install_str ⟨0, 8⟩ _).2.1 _ _ rfl (by decide) (by decide) (by decide)
     (by decide),
   (c2_install_str ⟨0, 8⟩ _).2.2.1 _ _ rfl (by decide) (by decide) (by decide)
     (by decide),
   (c2_install_str ⟨0, 8⟩ _).2.2.2 rfl⟩

/-- Witness for C3: both `none` cases and the `"args"` key at concrete
inputs. -/
theorem c3_witness :
    prepareInstall sampleEnv ⟨0, 8⟩ ⟨"test", none, ["uv", "pip"]⟩ false false
        none = Except.ok none ∧
    prepareInstall sampleEnv ⟨0, 8⟩ ⟨"solidity", some "0.5", ["uv", "pip"]⟩
        true false none = Except.ok none ∧
    ∃ l, List.lookup "args" sampleUpgradeResult = some (PrepValue.args l) :=
  ⟨(c3_prepare_install sampleEnv ⟨0, 8⟩ ⟨"test", none, ["uv", "pip"]⟩ false
      false none).1 (by decide),
   (c3_prepare_install sampleEnv ⟨0, 8⟩ ⟨"solidity", some "0.5", ["uv", "pip"]⟩
      true false none).2.1 (by decide) rfl,
   (c3_prepare_install sampleEnv ⟨0, 8⟩ ⟨"trezor", none, ["uv", "pip"]⟩ true
      false none).2.2 sampleUpgradeResult rfl⟩

/-- Witness for C4 at a concrete plugin and version. -/
theorem c4_witness :
    ∃ res, prepareInstall sampleEnv ⟨0, 8⟩ ⟨"trezor", none, ["uv", "pip"]⟩
        true false none = Except.ok (some res) ∧
      List.lookup "args" res = some (PrepValue.args
        (preparePackageManagerArgs ⟨"trezor", none, ["uv", "pip"]⟩ "install"
            none none ++
          ["--upgrade",
           packageName ⟨"trezor", none, ["uv", "pip"]⟩ ++
             (if (⟨0, 8⟩ : ApeVer).major = 0 then
               ">=0." ++ toString (⟨0, 8⟩ : ApeVer).minor ++ ",<0." ++
                 toString ((⟨0, 8⟩ : ApeVer).minor + 1)
             else
               ">=" ++ toString (⟨0, 8⟩ : ApeVer).major ++ ",<" ++
                 toString ((⟨0, 8⟩ : ApeVer).major + 1)),
           "--quiet"])) :=
  c4_prepare_install_upgrade sampleEnv ⟨0, 8⟩ ⟨"trezor", none, ["uv", "pip"]⟩
    false none (by decide) rfl (by decide)

/-- Witness for C5: both package managers with a python location, and the
no-location case. -/
theorem c5_witness :
    preparePackageManagerArgs ⟨"trezor", none, ["uv", "pip"]⟩ "install"
        (some "/usr/bin/python3") (some ["--user"]) =
      ["uv", "pip"] ++ ["install", "--python", "/usr/bin/python3"] ++
        optList (some ["--user"]) ∧
    preparePackageManagerArgs ⟨"trezor", none, ["python", "-m", "pip"]⟩
        "install" (some "/usr/bin/python3") (some ["--user"]) =
      ["python", "-m", "pip"] ++ ["--python", "/usr/bin/python3", "install"] ++
        optList (some ["--user"]) ∧
    preparePackageManagerArgs ⟨"trezor", none, ["uv", "pip"]⟩ "install" none
        (some ["--user"]) =
      ["uv", "pip"] ++ ["install"] ++ optList (some ["--user"]) :=
  ⟨(c5_prepare_package_manager_args ⟨"trezor", none, ["uv", "pip"]⟩ "install"
      "/usr/bin/python3" (some ["--user"]) (by decide)).1 (by decide)
      (by decide),
   (c5_prepare_package_manager_args ⟨"trezor", none, ["python", "-m", "pip"]⟩
      "install" "/usr/bin/python3" (some ["--user"]) (by decide)).2.1
      (by decide) (by decide),
   (c5_prepare_package_manager_args ⟨"trezor", none, ["uv", "pip"]⟩ "install"
      "/usr/bin/python3" (some ["--user"]) (by decide)).2.2⟩

/-- Witness for C6 at a non-`uv` pip command. -/
theorem c6_witness :
    getUninstallArgs ⟨"trezor", none, ["python", "-m", "pip"]⟩ none =
      preparePackageManagerArgs ⟨"trezor", none, ["python", "-m", "pip"]⟩
          "uninstall" none none ++
        (if (⟨"trezor", none, ["python", "-m", "pip"]⟩ :
            PluginMetadata).pipCommand.headD "" ≠ "uv" then ["-y"] else []) ++
        [packageName ⟨"trezor", none, ["python", "-m", "pip"]⟩, "--quiet"] ∧
    ∃ front, getUninstallArgs ⟨"trezor", none, ["python", "-m", "pip"]⟩ none =
      front ++ [packageName ⟨"trezor", none, ["python", "-m", "pip"]⟩,
        "--quiet"] :=
  c6_get_uninstall_args ⟨"trezor", none, ["python", "-m", "pip"]⟩ none
    (by decide)

/-- Witness for the amended C7 on the sample input. -/
theorem c7_witness : groupsKeysDisjoint sampleGroups = true :=
  c7_groups_disjoint sampleEnv samplePackages true none sampleGroups
    (by decide) rfl

/-- Witness for C8 on the specifier string `"==0.5"`. -/
theorem c8_witness :
    (wouldGetDowngraded ⟨0, 8⟩ [("==", [0, 5])] = true ↔
      ((⟨0, 8⟩ : ApeVer).major = 0 ∧
        ∃ sp ∈ ([("==", [0, 5])] : List Specifier),
          (sp.1 = "==" ∨ sp.1 = "<" ∨ sp.1 = "<=") ∧
          releaseMinor sp.2 < (⟨0, 8⟩ : ApeVer).minor))
  ∧ (1 ≤ (⟨0, 8⟩ : ApeVer).major →
      wouldGetDowngraded ⟨0, 8⟩ [("==", [0, 5])] = false) :=
  c8_would_get_downgraded ⟨0, 8⟩ "==0.5" [("==", [0, 5])] (by decide)

/-- Witness for C9 on the value `"foo>=0.6"`. -/
theorem c9_witness :
    ((strContainsChar "foo>=0.6" '=' || strContainsChar "foo>=0.6" '<' ||
        strContainsChar "foo>=0.6" '>') = true →
      ∃ name rest, _split_name_and_version "foo>=0.6" = (name, some rest) ∧
        name ++ rest = "foo>=0.6" ∧
        (∀ c ∈ name.toList, c ≠ '=' ∧ c ≠ '<' ∧ c ≠ '>') ∧
        (∃ c0 t, rest.toList = c0 :: t ∧ (c0 = '=' ∨ c0 = '<' ∨ c0 = '>')))
  ∧ ((strContainsChar "foo>=0.6" '=' || strContainsChar "foo>=0.6" '<' ||
        strContainsChar "foo>=0.6" '>') = false →
      _split_name_and_version "foo>=0.6" = ("foo>=0.6", none)) :=
  c9_split_name_and_version "foo>=0.6" (by decide)

/-- Witness for C10 at two equal concrete plugins. -/
theorem c10_witness :
    preparePackageManagerArgs ⟨"trezor", none, ["uv", "pip"]⟩ "install" none
        none =
      preparePackageManagerArgs ⟨"trezor", none, ["uv", "pip"]⟩ "install" none
        none ∧
    getUninstallArgs ⟨"trezor", none, ["uv", "pip"]⟩ none =
      getUninstallArgs ⟨"trezor", none, ["uv", "pip"]⟩ none :=
  ⟨(c10_deterministic ⟨"trezor", none, ["uv", "pip"]⟩
      ⟨"trezor", none, ["uv", "pip"]⟩ rfl rfl rfl).1 "install" none none,
   (c10_deterministic ⟨"trezor", none, ["uv", "pip"]⟩
      ⟨"trezor", none, ["uv", "pip"]⟩ rfl rfl rfl).2 none⟩
